import Mathlib

/-!
Verification of the yt-transcript plugin's transcript engine.

This file gives a shallow embedding of the pure core of the plugin:

* the Segmenter `createSegments` and its helpers
  (`src/server/src/mcp/tools/search-transcript.ts`),
* the BM25 relevance ranker (`tokenize`, `calculateIDF`, `bm25Score` and
  the filter/sort stage of `handleSearchTranscript`),
* the retrieval dispatch of `handleGetTranscript`
  (`src/server/src/mcp/tools/get-transcript.ts`),
* the caption-document parsers (`parsePTagFormat`, `parseTextTagFormat`,
  `parseTimedTextXml`) and the caption-track selection step of
  `fetchTranscriptFromYouTube`.

JavaScript numbers holding millisecond offsets are embedded as `Int`
(the code only ever produces integral millisecond values), `Math.floor(x / k)`
as `Int.fdiv`, the JS `%` remainder as `Int.tmod`, and the float arithmetic
of the BM25 scorer as real arithmetic.  JS `x || d` on numbers (`0` is falsy)
is embedded explicitly wherever it occurs.
-/

namespace YT

/-- One entry of `transcriptWithTimeCodes` (interface `TimecodeEntry` /
`TranscriptSegment` in the source): millisecond `start`, `end` and
`duration` plus the segment text.  The source field `end` is a Lean
keyword, so it is called `end_` here. -/
structure TimecodeEntry where
  start : Int
  end_ : Int
  text : String
  duration : Int
  deriving Repr, DecidableEq

/-- A search window produced by `createSegments` (interface
`SearchSegment` in the source).  `startTime`/`endTime` are in whole
seconds, as in the source (`Math.floor(ms / 1000)`). -/
structure SearchSegment where
  text : String
  startTime : Int
  endTime : Int
  startFormatted : String
  endFormatted : String
  deriving Repr, DecidableEq

/-- JS `array.join(sep)`. -/
def jsJoin (sep : String) : List String → String
  | [] => ""
  | [x] => x
  | x :: y :: t => x ++ sep ++ jsJoin sep (y :: t)

/-- JS `n.toString().padStart(2, '0')` for an integer. -/
def padZero2 (n : Int) : String :=
  let s := toString n
  if s.length < 2 then "0" ++ s else s

/-- Embeds `formatTime` (identical in search-transcript.ts and
get-transcript.ts): format milliseconds as `M:SS` or `H:MM:SS`.
JS `Math.floor(x / k)` is `Int.fdiv`, JS `%` is `Int.tmod`. -/
def formatTime (ms : Int) : String :=
  let totalSeconds := ms.fdiv 1000
  let hours := totalSeconds.fdiv 3600
  let minutes := (totalSeconds.tmod 3600).fdiv 60
  let seconds := totalSeconds.tmod 60
  if hours > 0 then
    toString hours ++ ":" ++ padZero2 minutes ++ ":" ++ padZero2 seconds
  else
    toString minutes ++ ":" ++ padZero2 seconds

/-- End of one timecode entry as computed at window close:
`entry.end || entry.start + (entry.duration || 0)` — a numeric JS `||`
falls through on `0`, and `duration || 0` is the identity on integers. -/
def entryEnd (e : TimecodeEntry) : Int :=
  if e.end_ = 0 then e.start + e.duration else e.end_

/-- `currentSegment[currentSegment.length - 1]` fed to `entryEnd`;
`0` for an empty list (never reached by the segmenter). -/
def lastEnd (cur : List TimecodeEntry) : Int :=
  match cur.getLast? with
  | some e => entryEnd e
  | none => 0

/-- The window record pushed by `createSegments` for an accumulated run
`cur` whose nominal start is `s` (the source's `segmentStartTime`). -/
def mkWindow (s : Int) (cur : List TimecodeEntry) : SearchSegment :=
  { text := jsJoin " " (cur.map (·.text))
    startTime := s.fdiv 1000
    endTime := (lastEnd cur).fdiv 1000
    startFormatted := formatTime s
    endFormatted := formatTime (lastEnd cur) }

/-- The loop of `createSegments`: walk the remaining entries, holding the
current run `cur` and its start `s`; close the run whenever an entry's
`start` reaches the nominal end `s + d`, and flush the last run at the
end (each flush is guarded by `currentSegment.length > 0`). -/
def createSegmentsGo (d : Int) : List TimecodeEntry → List TimecodeEntry → Int → List SearchSegment
  | [], cur, s => if cur.isEmpty then [] else [mkWindow s cur]
  | e :: rest, cur, s =>
    if e.start < s + d then
      createSegmentsGo d rest (cur ++ [e]) s
    else
      (if cur.isEmpty then [] else [mkWindow s cur]) ++ createSegmentsGo d rest [e] e.start

/-- Embeds `createSegments(timecodes, segmentDurationMs)` from
search-transcript.ts: split timecodes into windows of nominal duration
`d` milliseconds.  The empty list short-circuits to `[]` as in the
source; otherwise the loop starts with an empty run whose nominal start
is `timecodes[0].start`. -/
def createSegments (timecodes : List TimecodeEntry) (d : Int) : List SearchSegment :=
  match timecodes with
  | [] => []
  | e :: rest => createSegmentsGo d (e :: rest) [] e.start

/-- Embeds the `!timecodes` guard: a missing (`null`/`undefined`) list
also yields `[]`. -/
def createSegmentsOpt (timecodes : Option (List TimecodeEntry)) (d : Int) : List SearchSegment :=
  match timecodes with
  | none => []
  | some tc => createSegments tc d

/-- The run structure underlying `createSegmentsGo`: the same loop,
returning the runs of entries themselves instead of the built windows. -/
def chunkGo (d : Int) : List TimecodeEntry → List TimecodeEntry → Int → List (List TimecodeEntry)
  | [], cur, _ => if cur.isEmpty then [] else [cur]
  | e :: rest, cur, s =>
    if e.start < s + d then
      chunkGo d rest (cur ++ [e]) s
    else
      (if cur.isEmpty then [] else [cur]) ++ chunkGo d rest [e] e.start

/-- The partition of a timecode list into the runs that `createSegments`
turns into windows. -/
def chunkSegs (timecodes : List TimecodeEntry) (d : Int) : List (List TimecodeEntry) :=
  match timecodes with
  | [] => []
  | e :: rest => chunkGo d rest [e] e.start

/-- Nominal start of a run: the `start` of its first entry. -/
def chunkHeadStart (c : List TimecodeEntry) : Int :=
  match c with
  | [] => 0
  | e :: _ => e.start

/-! ### Basic lemmas about `jsJoin` and the run decomposition -/

theorem jsJoin_append (sep : String) (A B : List String) (hA : A ≠ []) (hB : B ≠ []) :
    jsJoin sep (A ++ B) = jsJoin sep A ++ sep ++ jsJoin sep B := by
  induction A with
  | nil => exact absurd rfl hA
  | cons x xs ih =>
    cases xs with
    | nil =>
      cases B with
      | nil => exact absurd rfl hB
      | cons y t => simp [jsJoin]
    | cons y ys =>
      have h := ih (by simp)
      simp only [List.cons_append, List.append_eq, jsJoin] at h ⊢
      rw [h]
      simp [String.append_assoc]

theorem flatten_ne_nil {α : Type} (c : List α) (cs : List (List α)) (hc : c ≠ []) :
    (c :: cs).flatten ≠ [] := by
  simp only [List.flatten_cons]
  intro h
  rcases List.append_eq_nil.mp h with ⟨h1, _⟩
  exact hc h1

theorem jsJoin_flatten (cs : List (List String)) (h : ∀ c ∈ cs, c ≠ []) :
    jsJoin " " (cs.map (jsJoin " ")) = jsJoin " " cs.flatten := by
  induction cs with
  | nil => rfl
  | cons c cs' ih =>
    cases cs' with
    | nil => simp [jsJoin]
    | cons c' t =>
      have hc : c ≠ [] := h c (by simp)
      have hc' : c' ≠ [] := h c' (by simp)
      have hrest : ∀ x ∈ c' :: t, x ≠ [] := fun x hx => h x (List.mem_cons_of_mem c hx)
      have hmap : (c' :: t).map (jsJoin " ") ≠ [] := by simp
      have hfl : (c' :: t).flatten ≠ [] := flatten_ne_nil c' t hc'
      have step : jsJoin " " ((c :: c' :: t).map (jsJoin " "))
          = jsJoin " " c ++ " " ++ jsJoin " " ((c' :: t).map (jsJoin " ")) := by
        have := jsJoin_append " " [jsJoin " " c] ((c' :: t).map (jsJoin " ")) (by simp) hmap
        simpa using this
      rw [step, ih hrest]
      have : (c :: c' :: t).flatten = c ++ (c' :: t).flatten := by simp
      rw [this, jsJoin_append " " c ((c' :: t).flatten) hc hfl]

theorem chunkHeadStart_append (cur : List TimecodeEntry) (e : TimecodeEntry) (h : cur ≠ []) :
    chunkHeadStart (cur ++ [e]) = chunkHeadStart cur := by
  cases cur with
  | nil => exact absurd rfl h
  | cons x xs => rfl

theorem chunkGo_flatten (d : Int) :
    ∀ (l cur : List TimecodeEntry) (s : Int), (chunkGo d l cur s).flatten = cur ++ l := by
  intro l
  induction l with
  | nil =>
    intro cur s
    by_cases hc : cur = [] <;> simp [chunkGo, hc]
  | cons e rest ih =>
    intro cur s
    by_cases hlt : e.start < s + d
    · simp [chunkGo, hlt, ih]
    · by_cases hc : cur = [] <;> simp [chunkGo, hlt, hc, ih]

theorem chunkGo_ne_nil (d : Int) :
    ∀ (l cur : List TimecodeEntry) (s : Int), ∀ c ∈ chunkGo d l cur s, c ≠ [] := by
  intro l
  induction l with
  | nil =>
    intro cur s c hc
    by_cases h : cur = [] <;> simp [chunkGo, h] at hc
    · subst hc; assumption
  | cons e rest ih =>
    intro cur s c hc
    by_cases hlt : e.start < s + d
    · simp only [chunkGo, if_pos hlt] at hc
      exact ih (cur ++ [e]) s c hc
    · by_cases h : cur = []
      · simp only [chunkGo, if_neg hlt, h, List.isEmpty_nil, if_pos rfl, List.nil_append] at hc
        exact ih [e] e.start c hc
      · simp only [chunkGo, if_neg hlt, List.isEmpty_eq_true, h, if_neg, ite_false,
          List.cons_append, List.nil_append, List.mem_cons] at hc
        rcases hc with hc | hc
        · subst hc; assumption
        · exact ih [e] e.start c hc

theorem chunkGo_head (d : Int) :
    ∀ (l cur : List TimecodeEntry) (s : Int), cur ≠ [] →
      ∃ c L, chunkGo d l cur s = c :: L ∧ chunkHeadStart c = chunkHeadStart cur := by
  intro l
  induction l with
  | nil =>
    intro cur s h
    refine ⟨cur, [], ?_, rfl⟩
    simp [chunkGo, List.isEmpty_eq_true, h]
  | cons e rest ih =>
    intro cur s h
    by_cases hlt : e.start < s + d
    · rcases ih (cur ++ [e]) s (by simp) with ⟨c, L, hEq, hhd⟩
      exact ⟨c, L, by simp [chunkGo, hlt, hEq], by rw [hhd, chunkHeadStart_append cur e h]⟩
    · refine ⟨cur, chunkGo d rest [e] e.start, ?_, rfl⟩
      simp [chunkGo, hlt, List.isEmpty_eq_true, h]

theorem chunkGo_inchunk (d : Int) :
    ∀ (l cur : List TimecodeEntry) (s : Int), cur ≠ [] → s = chunkHeadStart cur →
      (∀ x ∈ cur.tail, x.start < s + d) →
      ∀ c ∈ chunkGo d l cur s, ∀ e ∈ c.tail, e.start < chunkHeadStart c + d := by
  intro l
  induction l with
  | nil =>
    intro cur s hcur hs htail c hc e he
    simp only [chunkGo, List.isEmpty_eq_true, hcur, ite_false, List.mem_singleton] at hc
    subst hc
    rw [← hs]
    exact htail e he
  | cons a rest ih =>
    intro cur s hcur hs htail c hc e he
    by_cases hlt : a.start < s + d
    · simp only [chunkGo, if_pos hlt] at hc
      refine ih (cur ++ [a]) s (by simp) ?_ ?_ c hc e he
      · rw [chunkHeadStart_append cur a hcur]; exact hs
      · intro x hx
        cases cur with
        | nil => exact absurd rfl hcur
        | cons c0 cs =>
          simp only [List.cons_append, List.tail_cons, List.mem_append, List.mem_singleton] at hx
          rcases hx with hx | hx
          · exact htail x hx
          · subst hx; exact hlt
    · have hne : ¬ cur.isEmpty := by simpa [List.isEmpty_eq_true] using hcur
      simp only [chunkGo, if_neg hlt, List.isEmpty_eq_true, hcur, ite_false, List.cons_append,
        List.nil_append, List.mem_cons] at hc
      rcases hc with hc | hc
      · subst hc
        rw [← hs]
        exact htail e he
      · exact ih [a] a.start (by simp) rfl (by simp) c hc e he

theorem chunkGo_chain (d : Int) :
    ∀ (l cur : List TimecodeEntry) (s : Int), cur ≠ [] → s = chunkHeadStart cur →
      List.Chain' (fun c₁ c₂ => chunkHeadStart c₁ + d ≤ chunkHeadStart c₂) (chunkGo d l cur s) := by
  intro l
  induction l with
  | nil =>
    intro cur s hcur hs
    simp [chunkGo, List.isEmpty_eq_true, hcur]
  | cons a rest ih =>
    intro cur s hcur hs
    by_cases hlt : a.start < s + d
    · simp only [chunkGo, if_pos hlt]
      exact ih (cur ++ [a]) s (by simp) (by rw [chunkHeadStart_append cur a hcur]; exact hs)
    · simp only [chunkGo, if_neg hlt, List.isEmpty_eq_true, hcur, ite_false, List.cons_append,
        List.nil_append]
      rcases chunkGo_head d rest [a] a.start (by simp) with ⟨c0, L, hEq, hhd⟩
      rw [hEq, List.chain'_cons]
      constructor
      · rw [hhd, ← hs]
        have h2 : chunkHeadStart [a] = a.start := rfl
        rw [h2]
        exact le_of_not_lt hlt
      · rw [← hEq]
        exact ih [a] a.start (by simp) rfl

theorem createSegmentsGo_eq (d : Int) :
    ∀ (l cur : List TimecodeEntry) (s : Int), cur ≠ [] → s = chunkHeadStart cur →
      createSegmentsGo d l cur s
        = (chunkGo d l cur s).map (fun c => mkWindow (chunkHeadStart c) c) := by
  intro l
  induction l with
  | nil =>
    intro cur s hcur hs
    simp [createSegmentsGo, chunkGo, List.isEmpty_eq_true, hcur, hs]
  | cons a rest ih =>
    intro cur s hcur hs
    by_cases hlt : a.start < s + d
    · simp only [createSegmentsGo, chunkGo, if_pos hlt]
      exact ih (cur ++ [a]) s (by simp) (by rw [chunkHeadStart_append cur a hcur]; exact hs)
    · simp only [createSegmentsGo, chunkGo, if_neg hlt, List.isEmpty_eq_true, hcur, ite_false,
        List.cons_append, List.nil_append, List.map_cons]
      rw [ih [a] a.start (by simp) rfl, hs]

theorem createSegments_cons (d : Int) (e : TimecodeEntry) (rest : List TimecodeEntry) :
    createSegments (e :: rest) d = createSegmentsGo d rest [e] e.start := by
  show createSegmentsGo d (e :: rest) [] e.start = _
  by_cases hlt : e.start < e.start + d
  · simp [createSegmentsGo, hlt]
  · simp [createSegmentsGo, hlt]

theorem chunkSegs_cons (d : Int) (e : TimecodeEntry) (rest : List TimecodeEntry) :
    chunkSegs (e :: rest) d = chunkGo d rest [e] e.start := rfl

theorem createSegments_eq_chunks (tc : List TimecodeEntry) (d : Int) :
    createSegments tc d = (chunkSegs tc d).map (fun c => mkWindow (chunkHeadStart c) c) := by
  cases tc with
  | nil => rfl
  | cons e rest =>
    rw [createSegments_cons, chunkSegs_cons]
    exact createSegmentsGo_eq d rest [e] e.start (by simp) rfl

theorem chunkSegs_flatten (tc : List TimecodeEntry) (d : Int) :
    (chunkSegs tc d).flatten = tc := by
  cases tc with
  | nil => rfl
  | cons e rest => rw [chunkSegs_cons, chunkGo_flatten]; rfl

theorem chunkSegs_ne_nil (tc : List TimecodeEntry) (d : Int) :
    ∀ c ∈ chunkSegs tc d, c ≠ [] := by
  cases tc with
  | nil => intro c hc; simp [chunkSegs] at hc
  | cons e rest =>
    rw [chunkSegs_cons]
    exact chunkGo_ne_nil d rest [e] e.start

theorem chunkSegs_chain (tc : List TimecodeEntry) (d : Int) :
    List.Chain' (fun c₁ c₂ => chunkHeadStart c₁ + d ≤ chunkHeadStart c₂) (chunkSegs tc d) := by
  cases tc with
  | nil => simp [chunkSegs]
  | cons e rest =>
    rw [chunkSegs_cons]
    exact chunkGo_chain d rest [e] e.start (by simp) rfl

theorem chunkSegs_inchunk (tc : List TimecodeEntry) (d : Int) :
    ∀ c ∈ chunkSegs tc d, ∀ e ∈ c.tail, e.start < chunkHeadStart c + d := by
  cases tc with
  | nil => intro c hc; simp [chunkSegs] at hc
  | cons e rest =>
    rw [chunkSegs_cons]
    exact chunkGo_inchunk d rest [e] e.start (by simp) rfl (by simp)

theorem createSegments_texts (tc : List TimecodeEntry) (d : Int) :
    jsJoin " " ((createSegments tc d).map (·.text)) = jsJoin " " (tc.map (·.text)) := by
  rw [createSegments_eq_chunks, List.map_map]
  have h1 : ((fun s : SearchSegment => s.text) ∘ fun c => mkWindow (chunkHeadStart c) c)
      = (jsJoin " ") ∘ (List.map (fun e : TimecodeEntry => e.text)) := by
    funext c; rfl
  rw [h1, ← List.map_map, jsJoin_flatten]
  · rw [← List.map_flatten, chunkSegs_flatten]
  · intro c hc
    rcases List.mem_map.mp hc with ⟨c0, hc0, rfl⟩
    have := chunkSegs_ne_nil tc d c0 hc0
    simpa using this

theorem int_fdiv_mono {a b : Int} (c : Int) (hc : 0 ≤ c) (h : a ≤ b) :
    a.fdiv c ≤ b.fdiv c := by
  rw [Int.fdiv_eq_ediv _ hc, Int.fdiv_eq_ediv _ hc]
  rcases eq_or_lt_of_le hc with h0 | h0
  · simp [← h0]
  · exact Int.ediv_le_ediv h0 h

/-- A spec-valid entry closes no earlier than it starts. -/
theorem entryEnd_ge (e : TimecodeEntry)
    (h : 0 ≤ e.start ∧ e.start ≤ e.end_ ∧ e.duration = e.end_ - e.start) :
    e.start ≤ entryEnd e := by
  unfold entryEnd
  split_ifs with h0 <;> omega

theorem lastEnd_ge (c : List TimecodeEntry) (hne : c ≠ [])
    (hsorted : List.Pairwise (fun a b => a.start ≤ b.start) c)
    (hvalid : ∀ e ∈ c, 0 ≤ e.start ∧ e.start ≤ e.end_ ∧ e.duration = e.end_ - e.start) :
    chunkHeadStart c ≤ lastEnd c := by
  cases c with
  | nil => exact absurd rfl hne
  | cons e0 cs =>
    have hlast : (e0 :: cs).getLast? = some ((e0 :: cs).getLast (by simp)) :=
      List.getLast?_eq_getLast _ (by simp)
    have hmem : (e0 :: cs).getLast (by simp) ∈ e0 :: cs := List.getLast_mem _
    have h1 : e0.start ≤ ((e0 :: cs).getLast (by simp)).start := by
      rcases List.mem_cons.mp hmem with h | h
      · rw [h]
      · exact (List.pairwise_cons.mp hsorted).1 _ h
    have h2 := entryEnd_ge _ (hvalid _ hmem)
    show chunkHeadStart (e0 :: cs) ≤ lastEnd (e0 :: cs)
    unfold lastEnd
    rw [hlast]
    exact le_trans h1 h2

theorem createSegments_start_le_end (tc : List TimecodeEntry) (d : Int)
    (hsorted : List.Pairwise (fun a b => a.start ≤ b.start) tc)
    (hvalid : ∀ e ∈ tc, 0 ≤ e.start ∧ e.start ≤ e.end_ ∧ e.duration = e.end_ - e.start) :
    ∀ w ∈ createSegments tc d, w.startTime ≤ w.endTime := by
  intro w hw
  rw [createSegments_eq_chunks] at hw
  rcases List.mem_map.mp hw with ⟨c, hc, rfl⟩
  have hne := chunkSegs_ne_nil tc d c hc
  have hinf : c <:+: tc := by
    have h := List.infix_of_mem_flatten hc
    rwa [chunkSegs_flatten] at h
  have hsub := hinf.sublist
  have hsorted' := hsorted.sublist hsub
  have hvalid' : ∀ e ∈ c, 0 ≤ e.start ∧ e.start ≤ e.end_ ∧ e.duration = e.end_ - e.start :=
    fun e he => hvalid e (hsub.subset he)
  show (chunkHeadStart c).fdiv 1000 ≤ (lastEnd c).fdiv 1000
  exact int_fdiv_mono 1000 (by norm_num) (lastEnd_ge c hne hsorted' hvalid')

/-! ### Claims about the Segmenter -/

/-- C1: for every non-empty list of transcript segments satisfying the
data-model invariants (starts monotonically non-decreasing,
`0 ≤ start ≤ end`, `duration = end − start`) and every window duration
`d > 0`, `createSegments` assigns every input segment to exactly one
window, in order: the windows are exactly the runs of `chunkSegs`, whose
concatenation is the whole input and which are all non-empty; the
space-joined window texts equal the space-joined input segment texts;
and every produced window ends no earlier than it starts. -/
theorem segmenter_lossless_coverage (tc : List TimecodeEntry) (d : Int)
    (hne : tc ≠ []) (hd : 0 < d)
    (hsorted : List.Pairwise (fun a b => a.start ≤ b.start) tc)
    (hvalid : ∀ e ∈ tc, 0 ≤ e.start ∧ e.start ≤ e.end_ ∧ e.duration = e.end_ - e.start) :
    createSegments tc d = (chunkSegs tc d).map (fun c => mkWindow (chunkHeadStart c) c)
      ∧ (chunkSegs tc d).flatten = tc
      ∧ (∀ c ∈ chunkSegs tc d, c ≠ [])
      ∧ jsJoin " " ((createSegments tc d).map (·.text)) = jsJoin " " (tc.map (·.text))
      ∧ ∀ w ∈ createSegments tc d, w.startTime ≤ w.endTime :=
  ⟨createSegments_eq_chunks tc d, chunkSegs_flatten tc d, chunkSegs_ne_nil tc d,
    createSegments_texts tc d, createSegments_start_le_end tc d hsorted hvalid⟩

/-- Input used by the witness for the C1 theorem. -/
def c1Input : List TimecodeEntry :=
  [{ start := 0, end_ := 1000, text := "hello", duration := 1000 },
   { start := 31000, end_ := 32000, text := "world", duration := 1000 }]

/-- Witness for C1: the theorem applied at a concrete sorted, valid,
non-empty input and window duration 30000 ms. -/
theorem segmenter_lossless_coverage_witness :
    jsJoin " " ((createSegments c1Input 30000).map (·.text))
        = jsJoin " " (c1Input.map (·.text))
      ∧ ∀ w ∈ createSegments c1Input 30000, w.startTime ≤ w.endTime := by
  have h := segmenter_lossless_coverage c1Input 30000 (by decide) (by decide)
    (by decide) (by decide)
  exact ⟨h.2.2.2.1, h.2.2.2.2⟩

/-- C9: the Segmenter is a total function (it is a Lean `def`, hence
defined on every input and never throwing); a missing timecode list and
the empty timecode list both yield the empty window list. -/
theorem segmenter_total_on_empty :
    (∀ d : Int, createSegmentsOpt none d = [])
      ∧ (∀ d : Int, createSegmentsOpt (some []) d = [])
      ∧ ∀ (tc : Option (List TimecodeEntry)) (d : Int),
          ∃ ws : List SearchSegment, createSegmentsOpt tc d = ws :=
  ⟨fun _ => rfl, fun _ => rfl, fun tc d => ⟨createSegmentsOpt tc d, rfl⟩⟩

/-- C10: for every segment list and window duration `d > 0`,
`createSegments` is the window image of the run partition `chunkSegs`:
the runs concatenate back to the input; each run starts with a segment
whose `start` is the run's (and hence the window's) anchor; consecutive
runs' anchors are at least `d` apart, so a segment starting at or after
the current window's nominal end `start + d` opens a new window anchored
at that segment's own start; and every non-head segment of a run starts
strictly before the run's nominal end, so a segment starting exactly at
the nominal end is never placed in the current window. -/
theorem segmenter_window_anchoring (tc : List TimecodeEntry) (d : Int) (hd : 0 < d) :
    createSegments tc d = (chunkSegs tc d).map (fun c => mkWindow (chunkHeadStart c) c)
      ∧ (chunkSegs tc d).flatten = tc
      ∧ (∀ c ∈ chunkSegs tc d, ∃ e t, c = e :: t ∧ chunkHeadStart c = e.start)
      ∧ List.Chain' (fun c₁ c₂ => chunkHeadStart c₁ + d ≤ chunkHeadStart c₂) (chunkSegs tc d)
      ∧ ∀ c ∈ chunkSegs tc d, ∀ e ∈ c.tail, e.start < chunkHeadStart c + d := by
  refine ⟨createSegments_eq_chunks tc d, chunkSegs_flatten tc d, ?_, chunkSegs_chain tc d,
    chunkSegs_inchunk tc d⟩
  intro c hc
  cases c with
  | nil => exact absurd rfl (chunkSegs_ne_nil tc d [] hc)
  | cons e t => exact ⟨e, t, rfl, rfl⟩

/-- Input used by the witness for the C10 theorem: the second segment
starts exactly at the first window's nominal end. -/
def c10Input : List TimecodeEntry :=
  [{ start := 0, end_ := 2000, text := "aa bb", duration := 2000 },
   { start := 30000, end_ := 31000, text := "cc", duration := 1000 }]

/-- Witness for C10: the theorem applied at a concrete input whose second
segment starts exactly at the nominal end of the first window. -/
theorem segmenter_window_anchoring_witness :
    (chunkSegs c10Input 30000).flatten = c10Input
      ∧ List.Chain' (fun c₁ c₂ => chunkHeadStart c₁ + 30000 ≤ chunkHeadStart c₂)
          (chunkSegs c10Input 30000)
      ∧ ∀ c ∈ chunkSegs c10Input 30000, ∀ e ∈ c.tail,
          e.start < chunkHeadStart c + 30000 := by
  have h := segmenter_window_anchoring c10Input 30000 (by decide)
  exact ⟨h.2.1, h.2.2.2.1, h.2.2.2.2⟩

/-! ### The get_transcript retrieval dispatch (get-transcript.ts) -/

/-- Plugin configuration fields read by `handleGetTranscript`; `none`
stands for an absent field. -/
structure PluginCfg where
  chunkSizeSeconds : Option Int
  previewLength : Option Int
  maxFullTranscriptLength : Option Int
  deriving Repr, DecidableEq

/-- The validated arguments destructured by `handleGetTranscript`;
`none` stands for `undefined`. -/
structure GetArgs where
  includeFullTranscript : Bool
  includeTimecodes : Bool
  startTime : Option Int
  endTime : Option Int
  chunkIndex : Option Int
  chunkSize : Option Int
  deriving Repr, DecidableEq

/-- The stored transcript fields read by `handleGetTranscript`. -/
structure TranscriptRec where
  fullTranscript : String
  transcriptWithTimeCodes : List TimecodeEntry
  deriving Repr, DecidableEq

/-- JS `x || d` for an optional number: `undefined` and `0` fall through
to the default. -/
def jsOrNum (x : Option Int) (dflt : Int) : Int :=
  match x with
  | none => dflt
  | some v => if v = 0 then dflt else v

/-- Embeds `getVideoDurationMs`: the `end` of the last entry, with the
same `end || start + (duration || 0)` fallback, and `0` for an empty
list. -/
def getVideoDurationMs (timecodes : List TimecodeEntry) : Int :=
  match timecodes.getLast? with
  | none => 0
  | some l => entryEnd l

/-- Embeds `getTranscriptForTimeRange`: the entries whose `start` lies in
`[startTimeMs, endTimeMs)`, space-joined. -/
def getTranscriptForTimeRange (timecodes : List TimecodeEntry) (startTimeMs endTimeMs : Int) :
    String × List TimecodeEntry :=
  let entries := timecodes.filter fun e => decide (startTimeMs ≤ e.start) && decide (e.start < endTimeMs)
  (jsJoin " " (entries.map (·.text)), entries)

/-- JS `Math.ceil(a / b)` for integers with `b > 0`. -/
def ceilDivInt (a b : Int) : Int := -((-a).fdiv b)

/-- The four outcome shapes a `get_transcript` request resolves to (plus
the out-of-range error of the chunk branch).  Fields record the data the
handler puts in the response; `entries` is `some _` exactly when
`includeTimecodes` was set. -/
inductive GetOutcome where
  | timeRange (startSec endSec : Int) (transcript : String)
      (entries : Option (List TimecodeEntry)) : GetOutcome
  | chunk (index totalChunks startSec endSec : Int) (transcript : String)
      (entries : Option (List TimecodeEntry)) : GetOutcome
  | chunkOutOfRange (index totalChunks : Int) : GetOutcome
  | fullTranscript (transcript : String) (entries : Option (List TimecodeEntry))
      (warned : Bool) : GetOutcome
  | preview (preview : String) : GetOutcome
  deriving Repr, DecidableEq

/-- Embeds the dispatch of `handleGetTranscript` (after validation and
transcript lookup): time range if either bound is supplied, else chunk
if an index is supplied (out-of-range when `chunkStartMs ≥ durationMs`),
else full text if requested or short enough, else a bounded preview. -/
def handleGetTranscript (cfg : PluginCfg) (args : GetArgs) (t : TranscriptRec) : GetOutcome :=
  let defaultChunkSize := jsOrNum cfg.chunkSizeSeconds 300
  let previewLength := jsOrNum cfg.previewLength 500
  let maxFullTranscriptLength := jsOrNum cfg.maxFullTranscriptLength 50000
  let chunkSizeSeconds := jsOrNum args.chunkSize defaultChunkSize
  let timecodes := t.transcriptWithTimeCodes
  let fullText := t.fullTranscript
  let durationMs := getVideoDurationMs timecodes
  let totalChunks := ceilDivInt durationMs (chunkSizeSeconds * 1000)
  if args.startTime.isSome || args.endTime.isSome then
    let startMs := (jsOrNum args.startTime 0) * 1000
    let endMs := match args.endTime with
      | some e => e * 1000
      | none => durationMs
    let r := getTranscriptForTimeRange timecodes startMs endMs
    GetOutcome.timeRange (jsOrNum args.startTime 0) (jsOrNum args.endTime (durationMs.fdiv 1000))
      r.1 (if args.includeTimecodes then some r.2 else none)
  else
    match args.chunkIndex with
    | some chunkIndex =>
      let chunkStartMs := chunkIndex * chunkSizeSeconds * 1000
      let chunkEndMs := min ((chunkIndex + 1) * chunkSizeSeconds * 1000) durationMs
      if durationMs ≤ chunkStartMs then
        GetOutcome.chunkOutOfRange chunkIndex totalChunks
      else
        let r := getTranscriptForTimeRange timecodes chunkStartMs chunkEndMs
        GetOutcome.chunk chunkIndex totalChunks (chunkStartMs.fdiv 1000) (chunkEndMs.fdiv 1000)
          r.1 (if args.includeTimecodes then some r.2 else none)
    | none =>
      if args.includeFullTranscript || decide ((fullText.length : Int) ≤ maxFullTranscriptLength) then
        GetOutcome.fullTranscript fullText (if args.includeTimecodes then some timecodes else none)
          (args.includeFullTranscript && decide (maxFullTranscriptLength < (fullText.length : Int)))
      else
        GetOutcome.preview
          (if decide (previewLength < (fullText.length : Int)) then
            fullText.take previewLength.toNat ++ "..."
          else fullText)

theorem ceilDivInt_le_iff (a b n : Int) (hb : 0 < b) : ceilDivInt a b ≤ n ↔ a ≤ n * b := by
  unfold ceilDivInt
  rw [Int.fdiv_eq_ediv _ hb.le, neg_le, Int.le_ediv_iff_mul_le hb, neg_mul, neg_le_neg_iff]

/-- C4: `handleGetTranscript` resolves exactly one of the four outcomes,
in the precedence order time-range > window-index > full-text/auto-load
> bounded preview.  If either time bound is supplied the request is
answered as a time range — the entries whose `start` lies in
`[startSec·1000, endSec·1000)` with the end bound defaulting to the
transcript duration — even when a window index is also supplied; a
window index is honoured only when no time bound is present; otherwise
full text is returned when requested explicitly or short enough, and a
bounded preview is the fallback. -/
theorem getTranscript_precedence (cfg : PluginCfg) (args : GetArgs) (t : TranscriptRec) :
    ((args.startTime.isSome || args.endTime.isSome) = true →
      handleGetTranscript cfg args t
        = GetOutcome.timeRange (jsOrNum args.startTime 0)
            (jsOrNum args.endTime ((getVideoDurationMs t.transcriptWithTimeCodes).fdiv 1000))
            (getTranscriptForTimeRange t.transcriptWithTimeCodes
              ((jsOrNum args.startTime 0) * 1000)
              (match args.endTime with
                | some e => e * 1000
                | none => getVideoDurationMs t.transcriptWithTimeCodes)).1
            (if args.includeTimecodes then
              some (getTranscriptForTimeRange t.transcriptWithTimeCodes
                ((jsOrNum args.startTime 0) * 1000)
                (match args.endTime with
                  | some e => e * 1000
                  | none => getVideoDurationMs t.transcriptWithTimeCodes)).2
            else none))
    ∧ ((args.startTime.isSome || args.endTime.isSome) = false →
        ∀ ci, args.chunkIndex = some ci →
          (∃ total, handleGetTranscript cfg args t = GetOutcome.chunkOutOfRange ci total)
          ∨ (∃ total ss es tr en,
              handleGetTranscript cfg args t = GetOutcome.chunk ci total ss es tr en))
    ∧ ((args.startTime.isSome || args.endTime.isSome) = false → args.chunkIndex = none →
        (args.includeFullTranscript = true
            ∨ (t.fullTranscript.length : Int) ≤ jsOrNum cfg.maxFullTranscriptLength 50000) →
        ∃ en w, handleGetTranscript cfg args t = GetOutcome.fullTranscript t.fullTranscript en w)
    ∧ ((args.startTime.isSome || args.endTime.isSome) = false → args.chunkIndex = none →
        args.includeFullTranscript = false →
        jsOrNum cfg.maxFullTranscriptLength 50000 < (t.fullTranscript.length : Int) →
        ∃ p, handleGetTranscript cfg args t = GetOutcome.preview p) := by
  refine ⟨?_, ?_, ?_, ?_⟩
  · intro h
    simp only [handleGetTranscript, h, if_true]
  · intro h ci hci
    by_cases hrange : getVideoDurationMs t.transcriptWithTimeCodes
        ≤ ci * (jsOrNum args.chunkSize (jsOrNum cfg.chunkSizeSeconds 300)) * 1000
    · left
      exact ⟨_, by simp only [handleGetTranscript, h, Bool.false_eq_true, if_false, hci, if_pos hrange]; rfl⟩
    · right
      exact ⟨_, _, _, _, _, by simp only [handleGetTranscript, h, Bool.false_eq_true, if_false, hci, if_neg hrange]; rfl⟩
  · intro h hci hfull
    have hcond : (args.includeFullTranscript
        || decide ((t.fullTranscript.length : Int) ≤ jsOrNum cfg.maxFullTranscriptLength 50000))
        = true := by
      rcases hfull with hfull | hfull <;> simp [hfull]
    exact ⟨_, _, by simp only [handleGetTranscript, h, Bool.false_eq_true, if_false, hci, hcond, if_true]; rfl⟩
  · intro h hci hfull hlen
    have hcond : (args.includeFullTranscript
        || decide ((t.fullTranscript.length : Int) ≤ jsOrNum cfg.maxFullTranscriptLength 50000))
        = false := by
      simp [hfull, hlen, not_le]
    exact ⟨_, by simp only [handleGetTranscript, h, Bool.false_eq_true, if_false, hci, hcond, if_false]; rfl⟩

/-- Transcript record used by the witnesses for the retrieval theorems. -/
def getWitnessRec : TranscriptRec :=
  { fullTranscript := "hi there",
    transcriptWithTimeCodes := [{ start := 60000, end_ := 65000, text := "hi", duration := 5000 }] }

/-- Witness for C4: a request supplying both a time-range bound and a
window index is answered as a time range, never as a window. -/
theorem getTranscript_precedence_witness :
    handleGetTranscript ⟨none, none, none⟩
      ⟨false, false, some 10, none, some 1, some 30⟩ getWitnessRec
    = GetOutcome.timeRange 10 65
        (getTranscriptForTimeRange getWitnessRec.transcriptWithTimeCodes 10000 65000).1
        none := by
  have h := (getTranscript_precedence ⟨none, none, none⟩
    ⟨false, false, some 10, none, some 1, some 30⟩ getWitnessRec).1 (by decide)
  rw [h]
  rfl

/-- Counterexample to C5: with a transcript whose single segment starts
at 60 s and a 30-second window size, get_transcript answers window
index 0 with the arithmetic chunk [0 s, 30 s) (empty text), while the
Segmenter's window 0 is [60 s, 65 s]; and index 1 is answered with
content although the Segmenter computes only one window. -/
theorem getTranscript_window_not_segmenter :
    handleGetTranscript ⟨none, none, none⟩
        ⟨false, false, none, none, some 0, some 30⟩ getWitnessRec
      = GetOutcome.chunk 0 3 0 30 "" none
    ∧ (createSegments getWitnessRec.transcriptWithTimeCodes (30 * 1000)).map
        (fun w => (w.startTime, w.endTime)) = [(60, 65)]
    ∧ handleGetTranscript ⟨none, none, none⟩
        ⟨false, false, none, none, some 1, some 30⟩ getWitnessRec
      = GetOutcome.chunk 1 3 30 60 "" none :=
  ⟨by decide, by decide, by decide⟩

/-- C5 (amended): the window branch of get_transcript uses fixed
arithmetic chunk boundaries `[i·c·1000, min((i+1)·c·1000, durationMs))`
(`c` the requested or default chunk size), not the Segmenter's windows;
an index is out of range exactly when `i·c·1000 ≥ durationMs`, which for
a positive chunk size is exactly `i ≥ totalChunks = ⌈durationMs /
(c·1000)⌉`, and then an error is returned instead of content. -/
theorem getTranscript_chunk_arithmetic (cfg : PluginCfg) (args : GetArgs) (t : TranscriptRec)
    (ci : Int) (h1 : args.startTime = none) (h2 : args.endTime = none)
    (hci : args.chunkIndex = some ci) :
    (getVideoDurationMs t.transcriptWithTimeCodes ≤ ci * jsOrNum args.chunkSize (jsOrNum cfg.chunkSizeSeconds 300) * 1000 →
      handleGetTranscript cfg args t
        = GetOutcome.chunkOutOfRange ci (ceilDivInt (getVideoDurationMs t.transcriptWithTimeCodes) (jsOrNum args.chunkSize (jsOrNum cfg.chunkSizeSeconds 300) * 1000)))
    ∧ (ci * jsOrNum args.chunkSize (jsOrNum cfg.chunkSizeSeconds 300) * 1000 < getVideoDurationMs t.transcriptWithTimeCodes →
      handleGetTranscript cfg args t
        = GetOutcome.chunk ci (ceilDivInt (getVideoDurationMs t.transcriptWithTimeCodes) (jsOrNum args.chunkSize (jsOrNum cfg.chunkSizeSeconds 300) * 1000))
            ((ci * jsOrNum args.chunkSize (jsOrNum cfg.chunkSizeSeconds 300) * 1000).fdiv 1000)
            ((min ((ci + 1) * jsOrNum args.chunkSize (jsOrNum cfg.chunkSizeSeconds 300) * 1000) (getVideoDurationMs t.transcriptWithTimeCodes)).fdiv 1000)
            (getTranscriptForTimeRange t.transcriptWithTimeCodes (ci * jsOrNum args.chunkSize (jsOrNum cfg.chunkSizeSeconds 300) * 1000)
              (min ((ci + 1) * jsOrNum args.chunkSize (jsOrNum cfg.chunkSizeSeconds 300) * 1000) (getVideoDurationMs t.transcriptWithTimeCodes))).1
            (if args.includeTimecodes then
              some (getTranscriptForTimeRange t.transcriptWithTimeCodes (ci * jsOrNum args.chunkSize (jsOrNum cfg.chunkSizeSeconds 300) * 1000)
                (min ((ci + 1) * jsOrNum args.chunkSize (jsOrNum cfg.chunkSizeSeconds 300) * 1000) (getVideoDurationMs t.transcriptWithTimeCodes))).2
            else none))
    ∧ (0 < jsOrNum args.chunkSize (jsOrNum cfg.chunkSizeSeconds 300) →
        (getVideoDurationMs t.transcriptWithTimeCodes ≤ ci * jsOrNum args.chunkSize (jsOrNum cfg.chunkSizeSeconds 300) * 1000 ↔ ceilDivInt (getVideoDurationMs t.transcriptWithTimeCodes) (jsOrNum args.chunkSize (jsOrNum cfg.chunkSizeSeconds 300) * 1000) ≤ ci)) := by
  have hb : (args.startTime.isSome || args.endTime.isSome) = false := by simp [h1, h2]
  refine ⟨?_, ?_, ?_⟩
  · intro hrange
    simp only [handleGetTranscript, hb, Bool.false_eq_true, if_false, hci, if_pos hrange]
  · intro hrange
    simp only [handleGetTranscript, hb, Bool.false_eq_true, if_false, hci,
      if_neg (not_le.mpr hrange)]
  · intro hc
    have hb1000 : (0 : Int) < jsOrNum args.chunkSize (jsOrNum cfg.chunkSizeSeconds 300) * 1000 := by
      have : (0 : Int) < 1000 := by norm_num
      exact mul_pos hc this
    rw [mul_assoc]
    exact (ceilDivInt_le_iff (getVideoDurationMs t.transcriptWithTimeCodes) (jsOrNum args.chunkSize (jsOrNum cfg.chunkSizeSeconds 300) * 1000) ci hb1000).symm

/-- Witness for the amended C5 theorem: index 3 with duration 65 s and
chunk size 30 s is out of range (totalChunks = 3) and the out-of-range
condition coincides with `totalChunks ≤ 3`. -/
theorem getTranscript_chunk_arithmetic_witness :
    handleGetTranscript ⟨none, none, none⟩
        ⟨false, false, none, none, some 3, some 30⟩ getWitnessRec
      = GetOutcome.chunkOutOfRange 3 3
    ∧ (getVideoDurationMs getWitnessRec.transcriptWithTimeCodes ≤ 3 * 30 * 1000
        ↔ ceilDivInt (getVideoDurationMs getWitnessRec.transcriptWithTimeCodes) (30 * 1000) ≤ 3) := by
  have h := getTranscript_chunk_arithmetic ⟨none, none, none⟩
    ⟨false, false, none, none, some 3, some 30⟩ getWitnessRec 3 rfl rfl rfl
  exact ⟨h.1 (by decide), h.2.2 (by decide)⟩

/-! ### The BM25 relevance ranker (search-transcript.ts) -/

/-- JS regex `\s` (whitespace), restricted to the ASCII characters the
transcripts contain. -/
def jsSpace (c : Char) : Bool :=
  c = ' ' || c = '\t' || c = '\n' || c = '\r' || c = '\x0b' || c = '\x0c'

/-- JS regex `\w`: `[A-Za-z0-9_]`. -/
def isWordChar (c : Char) : Bool :=
  c.isAlphanum || c = '_'

/-- Embeds `tokenize`: lowercase (ASCII case mapping), replace every
character that is neither a word character nor whitespace by a space,
split on whitespace runs, and drop tokens of length ≤ 1.  `splitOnP`
differs from the JS `split(/\s+/)` only in producing empty chunks at
whitespace runs, all of which the length filter removes. -/
def tokenize (text : String) : List String :=
  let lowered := text.toList.map Char.toLower
  let replaced := lowered.map fun c => if isWordChar c || jsSpace c then c else ' '
  ((replaced.splitOnP jsSpace).map (fun w => String.mk w)).filter fun w => decide (1 < w.length)

/-- The idf value `calculateIDF` stores for one term of the vocabulary:
`ln((N − n + 0.5)/(n + 0.5) + 1)` with `N` the window count and `n` the
number of windows whose tokenization contains the term. -/
noncomputable def rawIDF (segments : List SearchSegment) (term : String) : ℝ :=
  let N : ℝ := segments.length
  let docsWithTerm : ℝ :=
    (segments.filter fun seg => decide (term ∈ tokenize seg.text)).length
  Real.log ((N - docsWithTerm + 0.5) / (docsWithTerm + 0.5) + 1)

/-- Embeds the idf map of `calculateIDF` as read back by `bm25Score`
(`idf.get(term) || 0`): the stored value for vocabulary terms, `0` for
anything else. -/
noncomputable def calculateIDF (segments : List SearchSegment) (vocabulary : List String)
    (term : String) : ℝ :=
  if term ∈ vocabulary then rawIDF segments term else 0

/-- Embeds `bm25Score`: sum, over the query tokens, of
`idf(t) · tf·(k1+1) / (tf + k1·(1 − b + b·len/avgLen))`, skipping terms
with zero frequency.  The source's term-frequency map `tf` is
`segmentTokens.count`. -/
noncomputable def bm25Score (segmentTokens queryTokens : List String) (idf : String → ℝ)
    (avgDocLength k1 b : ℝ) : ℝ :=
  let docLength : ℝ := segmentTokens.length
  queryTokens.foldl
    (fun score term =>
      if 0 < segmentTokens.count term then
        score + idf term * ((segmentTokens.count term : ℝ) * (k1 + 1)
          / ((segmentTokens.count term : ℝ) + k1 * (1 - b + b * (docLength / avgDocLength))))
      else score)
    0

/-- A window together with its BM25 score (interface `ScoredSegment`). -/
structure ScoredSegment extends SearchSegment where
  score : ℝ

/-- The scoring stage of `handleSearchTranscript`: tokenize the query,
build the idf map over the query vocabulary, compute the average window
length in tokens, and score every window (`k1 = 1.5`, `b = 0.75`). -/
noncomputable def scoreSegments (segments : List SearchSegment) (query : String) :
    List ScoredSegment :=
  let queryTokens := tokenize query
  let idf := calculateIDF segments queryTokens
  let avgDocLength :=
    (segments.map fun seg => ((tokenize seg.text).length : ℝ)).sum / (segments.length : ℝ)
  segments.map fun seg =>
    { toSearchSegment := seg,
      score := bm25Score (tokenize seg.text) queryTokens idf avgDocLength 1.5 0.75 }

/-- The comparator `(a, b) => b.score - a.score` of the result sort:
`a` may precede `b` exactly when `b.score ≤ a.score`. -/
noncomputable def scoreDescLE (a b : ScoredSegment) : Bool :=
  decide (b.score ≤ a.score)

/-- The filter/sort stage of `handleSearchTranscript`:
`scoredSegments.filter(s => s.score > 0).sort((a, b) => b.score - a.score)`.
The JS sort is specification-stable, embedded as a stable merge sort. -/
noncomputable def rankSegments (segments : List SearchSegment) (query : String) :
    List ScoredSegment :=
  ((scoreSegments segments query).filter fun s => decide (0 < s.score)).mergeSort scoreDescLE

/-- The final `.slice(0, maxResults)` of `handleSearchTranscript`. -/
noncomputable def searchResults (segments : List SearchSegment) (query : String)
    (maxResults : ℕ) : List ScoredSegment :=
  (rankSegments segments query).take maxResults

/-- The window count never exceeds the count of windows containing a
term, so the idf argument exceeds 1 and the logarithm is positive. -/
theorem rawIDF_pos (segments : List SearchSegment) (term : String) :
    0 < rawIDF segments term := by
  unfold rawIDF
  set n : ℝ := ((segments.filter fun seg => decide (term ∈ tokenize seg.text)).length : ℝ)
    with hn
  set N : ℝ := (segments.length : ℝ) with hN
  have hle : n ≤ N := by
    rw [hn, hN]
    exact_mod_cast List.length_filter_le _ _
  have h0 : (0 : ℝ) ≤ n := by
    rw [hn]; positivity
  apply Real.log_pos
  have hnum : (0 : ℝ) < N - n + 0.5 := by linarith
  have hden : (0 : ℝ) < n + 0.5 := by linarith
  have := div_pos hnum hden
  linarith

/-- Counterexample to C3: there is no window set, vocabulary and term
for which the computed idf is negative — the `+ 1` inside the logarithm
keeps its argument above 1, so the stored idf values are all positive. -/
theorem idf_never_negative :
    ¬ ∃ (segments : List SearchSegment) (vocabulary : List String) (term : String),
        term ∈ vocabulary ∧ calculateIDF segments vocabulary term < 0 := by
  rintro ⟨segments, vocabulary, term, hmem, hneg⟩
  rw [calculateIDF, if_pos hmem] at hneg
  exact absurd hneg (not_lt.mpr (rawIDF_pos segments term).le)

/-- C3 (amended): for every window set and term, the idf value computed
by `calculateIDF` is strictly positive (never negative), because the
BM25 variant used adds 1 inside the logarithm; the score sum applies idf
factors unclamped, but no negative factor can ever occur. -/
theorem idf_positive (segments : List SearchSegment) (vocabulary : List String) (term : String)
    (hmem : term ∈ vocabulary) :
    0 < calculateIDF segments vocabulary term
      ∧ 0 < rawIDF segments term := by
  rw [calculateIDF, if_pos hmem]
  exact ⟨rawIDF_pos segments term, rawIDF_pos segments term⟩

/-- Witness for the amended C3 theorem at a concrete window set and
term. -/
theorem idf_positive_witness :
    0 < calculateIDF [⟨"aa", 0, 0, "", ""⟩] ["aa"] "aa" :=
  (idf_positive [⟨"aa", 0, 0, "", ""⟩] ["aa"] "aa" (by decide)).1

theorem scoreDescLE_trans (x y z : ScoredSegment)
    (h1 : scoreDescLE x y = true) (h2 : scoreDescLE y z = true) : scoreDescLE x z = true :=
  decide_eq_true (le_trans (of_decide_eq_true h2) (of_decide_eq_true h1))

theorem scoreDescLE_total (x y : ScoredSegment) :
    (scoreDescLE x y || scoreDescLE y x) = true := by
  rcases le_total y.score x.score with h | h
  · simp [scoreDescLE, decide_eq_true h]
  · simp [scoreDescLE, decide_eq_true h]

/-- C2: the ranker stage returns exactly the windows whose BM25 score is
strictly positive (a permutation of the positive-score filter of the
scored windows, membership-equivalent to it, with no non-positive score
in the output), ordered by descending score; and the sort is stable:
any pair already in descending-or-tied order in the filtered input keeps
its relative order in the output. -/
theorem ranker_filter_sort_stable (segments : List SearchSegment) (query : String)
    (a b : ScoredSegment) (hab : b.score ≤ a.score)
    (hsub : [a, b].Sublist
      ((scoreSegments segments query).filter fun s => decide (0 < s.score))) :
    (rankSegments segments query).Perm
        ((scoreSegments segments query).filter fun s => decide (0 < s.score))
      ∧ (rankSegments segments query).Pairwise (fun x y => y.score ≤ x.score)
      ∧ (∀ w, w ∈ rankSegments segments query
          ↔ w ∈ scoreSegments segments query ∧ 0 < w.score)
      ∧ [a, b].Sublist (rankSegments segments query) := by
  refine ⟨List.mergeSort_perm _ _, ?_, ?_, ?_⟩
  · exact (List.sorted_mergeSort scoreDescLE_trans scoreDescLE_total _).imp
      fun h => of_decide_eq_true h
  · intro w
    unfold rankSegments
    rw [List.mem_mergeSort, List.mem_filter]
    constructor
    · rintro ⟨h1, h2⟩
      exact ⟨h1, of_decide_eq_true h2⟩
    · rintro ⟨h1, h2⟩
      exact ⟨h1, decide_eq_true h2⟩
  · exact List.pair_sublist_mergeSort scoreDescLE_trans scoreDescLE_total
      (decide_eq_true hab) hsub

/-- The window set used by the C2 witness: two windows with the same
text, hence literally the same BM25 score. -/
def c2segs : List SearchSegment :=
  [⟨"aa", 0, 0, "", ""⟩, ⟨"aa", 0, 0, "", ""⟩]

/-- The scored window produced (twice) by `scoreSegments` on `c2segs`
with query `"aa"`. -/
noncomputable def c2scored : ScoredSegment :=
  { text := "aa", startTime := 0, endTime := 0, startFormatted := "", endFormatted := "",
    score := bm25Score (tokenize "aa") (tokenize "aa") (calculateIDF c2segs (tokenize "aa"))
      ((c2segs.map fun seg => ((tokenize seg.text).length : ℝ)).sum / (c2segs.length : ℝ))
      1.5 0.75 }

theorem tokenize_aa : tokenize "aa" = ["aa"] := by decide

theorem c2scored_score_pos : 0 < c2scored.score := by
  have havg : ((c2segs.map fun seg => ((tokenize seg.text).length : ℝ)).sum
      / (c2segs.length : ℝ)) = 1 := by
    simp [c2segs, tokenize_aa]
  show 0 < bm25Score (tokenize "aa") (tokenize "aa") (calculateIDF c2segs (tokenize "aa"))
      ((c2segs.map fun seg => ((tokenize seg.text).length : ℝ)).sum / (c2segs.length : ℝ))
      1.5 0.75
  rw [havg, tokenize_aa]
  have hidf : calculateIDF c2segs ["aa"] "aa" = rawIDF c2segs "aa" := by
    rw [calculateIDF, if_pos (List.mem_singleton.mpr rfl)]
  have hcount : List.count "aa" ["aa"] = 1 := by decide
  unfold bm25Score
  simp only [List.foldl_cons, List.foldl_nil]
  rw [if_pos (by decide : 0 < List.count "aa" ["aa"])]
  rw [hcount, hidf]
  have hraw := rawIDF_pos c2segs "aa"
  have hlen : ((["aa"] : List String).length : ℝ) = 1 := by norm_num
  rw [hlen]
  push_cast
  nlinarith [hraw]

/-- Witness for C2: on a concrete window set with two identically-scored
windows (both scores positive), the theorem applied with the tied pair,
whose input order is preserved in the ranked output. -/
theorem ranker_filter_sort_stable_witness :
    [c2scored, c2scored].Sublist (rankSegments c2segs "aa") := by
  have h0 : scoreSegments c2segs "aa" = [c2scored, c2scored] := rfl
  have hfil : ((scoreSegments c2segs "aa").filter fun s => decide (0 < s.score))
      = [c2scored, c2scored] := by
    rw [h0]
    simp [List.filter, decide_eq_true c2scored_score_pos]
  exact (ranker_filter_sort_stable c2segs "aa" c2scored c2scored (le_refl _)
    (by rw [hfil])).2.2.2

/-- Per-term contribution of `bm25Score` for one query token. -/
noncomputable def bm25Term (segmentTokens : List String) (idf : String → ℝ)
    (avgDocLength k1 b : ℝ) (term : String) : ℝ :=
  if 0 < segmentTokens.count term then
    idf term * ((segmentTokens.count term : ℝ) * (k1 + 1)
      / ((segmentTokens.count term : ℝ)
        + k1 * (1 - b + b * ((segmentTokens.length : ℝ) / avgDocLength))))
  else 0

theorem foldl_if_add {α : Type} (p : α → Prop) [DecidablePred p] (g : α → ℝ) :
    ∀ (l : List α) (a : ℝ),
      l.foldl (fun acc x => if p x then acc + g x else acc) a
        = a + (l.map fun x => if p x then g x else 0).sum := by
  intro l
  induction l with
  | nil => intro a; simp
  | cons x xs ih =>
    intro a
    simp only [List.foldl_cons, List.map_cons, List.sum_cons]
    by_cases h : p x
    · rw [if_pos h, if_pos h, ih]
      ring
    · rw [if_neg h, if_neg h, ih]
      ring

theorem bm25Score_eq_sum (tks q : List String) (idf : String → ℝ) (avg k1 b : ℝ) :
    bm25Score tks q idf avg k1 b = (q.map (bm25Term tks idf avg k1 b)).sum := by
  have h := foldl_if_add (fun term => 0 < tks.count term)
    (fun term => idf term * ((tks.count term : ℝ) * (k1 + 1)
      / ((tks.count term : ℝ) + k1 * (1 - b + b * ((tks.length : ℝ) / avg))))) q 0
  unfold bm25Score bm25Term
  rw [h, zero_add]

theorem bm25Term_mono (t1 t2 : List String) (idf : String → ℝ) (avg : ℝ) (term u : String)
    (havg : 0 < avg) (hidf : 0 ≤ idf term) (hlen : t1.length = t2.length)
    (hcount : t1.count term ≤ t2.count term)
    (hu : u = term ∨ t1.count u = t2.count u) :
    bm25Term t1 idf avg 1.5 0.75 u ≤ bm25Term t2 idf avg 1.5 0.75 u := by
  have hK : 0 < 1.5 * (1 - 0.75 + 0.75 * ((t2.length : ℝ) / avg)) := by
    have hx : (0 : ℝ) ≤ (t2.length : ℝ) / avg := div_nonneg (Nat.cast_nonneg _) havg.le
    nlinarith
  rcases hu with rfl | hne
  · unfold bm25Term
    rw [hlen]
    by_cases h1 : 0 < t1.count u
    · have h2 : 0 < t2.count u := lt_of_lt_of_le h1 hcount
      rw [if_pos h1, if_pos h2]
      have hc : ((t1.count u : ℝ)) ≤ (t2.count u : ℝ) := by exact_mod_cast hcount
      have hc1 : (0 : ℝ) < (t1.count u : ℝ) := by exact_mod_cast h1
      have hc2 : (0 : ℝ) < (t2.count u : ℝ) := by exact_mod_cast h2
      apply mul_le_mul_of_nonneg_left _ hidf
      rw [div_le_div_iff₀ (by linarith) (by linarith)]
      nlinarith
    · rw [if_neg h1]
      by_cases h2 : 0 < t2.count u
      · rw [if_pos h2]
        have hc2 : (0 : ℝ) < (t2.count u : ℝ) := by exact_mod_cast h2
        apply mul_nonneg hidf
        apply div_nonneg
        · nlinarith
        · nlinarith
      · rw [if_neg h2]
  · unfold bm25Term
    rw [hlen, hne]

/-- C7 (amended): increasing a query term's frequency in one window
while holding both the window's token count and the frequencies of all
other query terms fixed never decreases that window's BM25 score, for a
positive average window length and a non-negative idf weight of the term
(as `calculateIDF` always produces). -/
theorem bm25_monotone_in_tf (t1 t2 q : List String) (idf : String → ℝ) (avg : ℝ)
    (term : String) (havg : 0 < avg) (hidf : 0 ≤ idf term) (hlen : t1.length = t2.length)
    (hcount : t1.count term ≤ t2.count term)
    (hother : ∀ u ∈ q, u ≠ term → t1.count u = t2.count u) :
    bm25Score t1 q idf avg 1.5 0.75 ≤ bm25Score t2 q idf avg 1.5 0.75 := by
  rw [bm25Score_eq_sum, bm25Score_eq_sum]
  apply List.sum_le_sum
  intro u hu
  by_cases h : u = term
  · exact bm25Term_mono t1 t2 idf avg term u havg hidf hlen hcount (Or.inl h)
  · exact bm25Term_mono t1 t2 idf avg term u havg hidf hlen hcount
      (Or.inr (hother u hu h))

/-- Witness for the amended C7 theorem: replacing the non-query token
`"bb"` by a second `"aa"` (same window length, other query-term
frequencies untouched) does not decrease the score. -/
theorem bm25_monotone_in_tf_witness :
    bm25Score ["aa", "bb"] ["aa"] (fun _ => 1) 2 1.5 0.75
      ≤ bm25Score ["aa", "aa"] ["aa"] (fun _ => 1) 2 1.5 0.75 :=
  bm25_monotone_in_tf ["aa", "bb"] ["aa", "aa"] ["aa"] (fun _ => 1) 2 "aa"
    (by norm_num) (by norm_num) (by decide) (by decide) (by decide)

/-- The single-window set used by the counterexample to C7. -/
def c7segs : List SearchSegment := [⟨"aa bb", 0, 0, "", ""⟩]

/-- The idf map the search pipeline computes for `c7segs` and the query
`"aa bb"`. -/
noncomputable def c7idf : String → ℝ := calculateIDF c7segs (tokenize "aa bb")

/-- The average window length the search pipeline computes for
`c7segs`. -/
noncomputable def c7avg : ℝ :=
  (c7segs.map fun seg => ((tokenize seg.text).length : ℝ)).sum / (c7segs.length : ℝ)

theorem tokenize_aabb : tokenize "aa bb" = ["aa", "bb"] := by decide

/-- Counterexample to C7 as stated: raising the frequency of the query
term `"aa"` from 1 to 2 while keeping the window's token count at 2
(replacing the other query term `"bb"`) strictly lowers the window's
BM25 score under the pipeline's own idf map and average length. -/
theorem bm25_freq_not_monotone :
    List.count "aa" ["aa", "bb"] < List.count "aa" ["aa", "aa"]
      ∧ (["aa", "bb"] : List String).length = (["aa", "aa"] : List String).length
      ∧ bm25Score ["aa", "aa"] (tokenize "aa bb") c7idf c7avg 1.5 0.75
          < bm25Score ["aa", "bb"] (tokenize "aa bb") c7idf c7avg 1.5 0.75 := by
  refine ⟨by decide, by decide, ?_⟩
  have hfila : (c7segs.filter fun seg => decide ("aa" ∈ tokenize seg.text)) = c7segs := by
    decide
  have hfilb : (c7segs.filter fun seg => decide ("bb" ∈ tokenize seg.text)) = c7segs := by
    decide
  have h1 : c7idf "aa" = rawIDF c7segs "aa" := by
    rw [c7idf, calculateIDF, if_pos]
    rw [tokenize_aabb]
    decide
  have h2 : c7idf "bb" = rawIDF c7segs "bb" := by
    rw [c7idf, calculateIDF, if_pos]
    rw [tokenize_aabb]
    decide
  have heq : rawIDF c7segs "bb" = rawIDF c7segs "aa" := by
    unfold rawIDF
    rw [hfila, hfilb]
  have hL : 0 < rawIDF c7segs "aa" := rawIDF_pos c7segs "aa"
  have havg : c7avg = 2 := by
    simp [c7avg, c7segs, tokenize_aabb]
  have hc1 : List.count "aa" ["aa", "aa"] = 2 := by decide
  have hc2 : List.count "bb" ["aa", "aa"] = 0 := by decide
  have hc3 : List.count "aa" ["aa", "bb"] = 1 := by decide
  have hc4 : List.count "bb" ["aa", "bb"] = 1 := by decide
  rw [tokenize_aabb]
  unfold bm25Score
  simp only [List.foldl_cons, List.foldl_nil, hc1, hc2, hc3, hc4, List.length_cons,
    List.length_nil, havg, h1, h2, heq]
  norm_num
  nlinarith [hL]

/-! ### Caption-track selection (fetchTranscriptFromYouTube, part_004) -/

/-- Does `s` start with `pat`? -/
def listStartsWith : List Char → List Char → Bool
  | [], _ => true
  | _ :: _, [] => false
  | p :: ps, c :: cs => p = c && listStartsWith ps cs

/-- Does `s` contain `pat` as a contiguous substring? -/
def listContainsSub (pat : List Char) : List Char → Bool
  | [] => pat.isEmpty
  | c :: cs => listStartsWith pat (c :: cs) || listContainsSub pat cs

/-- JS `s.includes(pat)`. -/
def jsIncludes (s pat : String) : Bool :=
  listContainsSub pat.toList s.toList

/-- One caption track of the player response: `languageCode`, optional
`kind` (`"asr"` marks auto-generated) and the caption `baseUrl`. -/
structure CaptionTrack where
  languageCode : String
  kind : Option String
  baseUrl : String
  deriving Repr, DecidableEq

/-- First find predicate: `t.languageCode === 'en' && t.kind !== 'asr'`
(an absent `kind` is not `'asr'`). -/
def isManualEnglish (t : CaptionTrack) : Bool :=
  decide (t.languageCode = "en") && decide (t.kind ≠ some "asr")

/-- Second find predicate: `t.languageCode === 'en'`. -/
def isEnglish (t : CaptionTrack) : Bool :=
  decide (t.languageCode = "en")

/-- Embeds the track-selection chain of `fetchTranscriptFromYouTube`:
first manual English, else any English, else `captionTracks[0]`. -/
def selectCaptionTrack (tracks : List CaptionTrack) : Option CaptionTrack :=
  match tracks.find? isManualEnglish with
  | some t => some t
  | none =>
    match tracks.find? isEnglish with
    | some t => some t
    | none => tracks.head?

/-- The error kinds of the caption-track stage. -/
inductive FetchErr where
  | noCaptions
  | unsupportedProtection
  deriving Repr, DecidableEq

/-- The proof-of-origin marker checked on the selected track's URL:
`track.baseUrl.includes('&exp=xpe')`. -/
def poMarker : String := "&exp=xpe"

/-- Embeds steps 4 of `fetchTranscriptFromYouTube`: fail when no track
exists, otherwise select one track and fail as unsupported when its URL
carries the proof-of-origin marker. -/
def selectAndCheckTrack (tracks : List CaptionTrack) : Except FetchErr CaptionTrack :=
  if tracks.isEmpty then .error .noCaptions
  else
    match selectCaptionTrack tracks with
    | none => .error .noCaptions
    | some track =>
      if jsIncludes track.baseUrl poMarker then .error .unsupportedProtection
      else .ok track

theorem selectCaptionTrack_isSome (tracks : List CaptionTrack) (hne : tracks ≠ []) :
    ∃ t, selectCaptionTrack tracks = some t := by
  unfold selectCaptionTrack
  cases h1 : tracks.find? isManualEnglish with
  | some t => exact ⟨t, rfl⟩
  | none =>
    cases h2 : tracks.find? isEnglish with
    | some t => exact ⟨t, rfl⟩
    | none =>
      cases tracks with
      | nil => exact absurd rfl hne
      | cons t ts => exact ⟨t, rfl⟩

/-- C8: for every non-empty caption-track list the selection chain picks
exactly one track — the first human-authored English track if any,
else the first English track if any, else the first track in upstream
order — and when the selected track's URL contains the proof-of-origin
marker the stage fails with `unsupportedProtection`, regardless of the
other tracks. -/
theorem captionTrack_selection (tracks : List CaptionTrack) (t : CaptionTrack)
    (hne : tracks ≠ []) (hsel : selectCaptionTrack tracks = some t) :
    t ∈ tracks
      ∧ ((∃ pre post, tracks = pre ++ t :: post ∧ isManualEnglish t = true
            ∧ ∀ u ∈ pre, isManualEnglish u = false)
        ∨ ((∀ u ∈ tracks, isManualEnglish u = false)
            ∧ ∃ pre post, tracks = pre ++ t :: post ∧ isEnglish t = true
              ∧ ∀ u ∈ pre, isEnglish u = false)
        ∨ ((∀ u ∈ tracks, isManualEnglish u = false) ∧ (∀ u ∈ tracks, isEnglish u = false)
            ∧ tracks.head? = some t))
      ∧ (∀ u, selectCaptionTrack tracks = some u → u = t)
      ∧ (jsIncludes t.baseUrl poMarker = true →
          selectAndCheckTrack tracks = .error .unsupportedProtection) := by
  have huniq : ∀ u, selectCaptionTrack tracks = some u → u = t := by
    intro u hu
    rw [hsel] at hu
    exact (Option.some_inj.mp hu.symm)
  have hval : t ∈ tracks ∧
      ((∃ pre post, tracks = pre ++ t :: post ∧ isManualEnglish t = true
          ∧ ∀ u ∈ pre, isManualEnglish u = false)
        ∨ ((∀ u ∈ tracks, isManualEnglish u = false)
            ∧ ∃ pre post, tracks = pre ++ t :: post ∧ isEnglish t = true
              ∧ ∀ u ∈ pre, isEnglish u = false)
        ∨ ((∀ u ∈ tracks, isManualEnglish u = false) ∧ (∀ u ∈ tracks, isEnglish u = false)
            ∧ tracks.head? = some t)) := by
    unfold selectCaptionTrack at hsel
    cases h1 : tracks.find? isManualEnglish with
    | some u =>
      rw [h1] at hsel
      have hu : u = t := Option.some_inj.mp hsel
      subst hu
      rcases List.find?_eq_some.mp h1 with ⟨hp, pre, post, hEq, hpre⟩
      refine ⟨by rw [hEq]; simp, Or.inl ⟨pre, post, hEq, hp, ?_⟩⟩
      intro v hv
      simpa using hpre v hv
    | none =>
      rw [h1] at hsel
      have hall1 : ∀ u ∈ tracks, isManualEnglish u = false := by
        intro u hu
        have := List.find?_eq_none.mp h1 u hu
        simpa using this
      cases h2 : tracks.find? isEnglish with
      | some u =>
        rw [h2] at hsel
        have hu : u = t := Option.some_inj.mp hsel
        subst hu
        rcases List.find?_eq_some.mp h2 with ⟨hp, pre, post, hEq, hpre⟩
        refine ⟨by rw [hEq]; simp, Or.inr (Or.inl ⟨hall1, pre, post, hEq, hp, ?_⟩)⟩
        intro v hv
        simpa using hpre v hv
      | none =>
        rw [h2] at hsel
        have hall2 : ∀ u ∈ tracks, isEnglish u = false := by
          intro u hu
          have := List.find?_eq_none.mp h2 u hu
          simpa using this
        refine ⟨?_, Or.inr (Or.inr ⟨hall1, hall2, hsel⟩)⟩
        cases tracks with
        | nil => exact absurd rfl hne
        | cons v ts =>
          have : v = t := Option.some_inj.mp hsel
          subst this
          simp
  refine ⟨hval.1, hval.2, huniq, ?_⟩
  intro hmark
  unfold selectAndCheckTrack
  rw [if_neg (by simpa [List.isEmpty_eq_true] using hne), hsel]
  simp only [hmark, if_true]

/-- Tracks used by the C8 witness: the selected track is the manual
English one, whose URL carries the proof-of-origin marker; the other
tracks are never consulted. -/
def c8tracks : List CaptionTrack :=
  [⟨"en", some "asr", "https://cap/1"⟩,
   ⟨"en", none, "https://cap/2?a=1&exp=xpe&b=2"⟩,
   ⟨"fr", none, "https://cap/3"⟩]

/-- Witness for C8: on `c8tracks` the manual English track is selected
and, carrying the marker, makes the stage fail as unsupported even
though other tracks exist. -/
theorem captionTrack_selection_witness :
    (⟨"en", none, "https://cap/2?a=1&exp=xpe&b=2"⟩ : CaptionTrack) ∈ c8tracks
      ∧ selectAndCheckTrack c8tracks = .error .unsupportedProtection := by
  have h := captionTrack_selection c8tracks ⟨"en", none, "https://cap/2?a=1&exp=xpe&b=2"⟩
    (by decide) (by decide)
  exact ⟨h.1, h.2.2.2 (by decide)⟩

/-! ### Caption-document parsing (part_003: parsePTagFormat,
parseTextTagFormat, parseTimedTextXml, decodeHtmlEntities) -/

/-- Replace every non-overlapping occurrence of `pat` (non-empty) by
`repl`, left to right, without rescanning replacements — JS
`s.replace(/pat/g, repl)` for a literal pattern.  The fuel is the input
length; every step consumes at least one character. -/
def replaceAllGo (pat repl : List Char) : ℕ → List Char → List Char
  | _, [] => []
  | 0, s => s
  | fuel + 1, c :: cs =>
    if pat ≠ [] ∧ listStartsWith pat (c :: cs) = true then
      repl ++ replaceAllGo pat repl fuel ((c :: cs).drop pat.length)
    else
      c :: replaceAllGo pat repl fuel cs

/-- One literal global replacement pass over a character list. -/
def replaceL (s : List Char) (pat repl : String) : List Char :=
  replaceAllGo pat.toList repl.toList s.length s

/-- Accumulate a decimal digit string into a number (`parseInt(_, 10)`). -/
def digitsToNat (ds : List Char) : ℕ :=
  ds.foldl (fun n c => n * 10 + (c.toNat - 48)) 0

/-- JS `String.fromCharCode(n)`: the code is reduced mod 2^16.  A code
that is not a valid scalar value (a lone surrogate) is not representable
as a `Char` and maps to the null character. -/
def jsFromCharCode (n : ℕ) : Char :=
  Char.ofNat (n % 65536)

/-- Recognize a decimal character reference `&#(\d+);` at the start of
the input, returning its code and the rest. -/
def numRef (s : List Char) : Option (ℕ × List Char) :=
  match s with
  | '&' :: '#' :: rest =>
    let ds := rest.takeWhile Char.isDigit
    if ds.isEmpty then none
    else
      match rest.dropWhile Char.isDigit with
      | ';' :: tail => some (digitsToNat ds, tail)
      | _ => none
  | _ => none

/-- The `&#(\d+);` replacement pass of `decodeHtmlEntities`. -/
def decodeNumericGo : ℕ → List Char → List Char
  | _, [] => []
  | 0, s => s
  | fuel + 1, c :: cs =>
    match numRef (c :: cs) with
    | some (n, rest) => jsFromCharCode n :: decodeNumericGo fuel rest
    | none => c :: decodeNumericGo fuel cs

/-- The `<[^>]+>` stripping pass of `decodeHtmlEntities`: a `<` followed
by at least one non-`>` character up to a `>` is deleted; a `<` with no
such closing `>` (or immediately followed by `>`) stays. -/
def stripTagsGo : ℕ → List Char → List Char
  | _, [] => []
  | 0, s => s
  | fuel + 1, c :: cs =>
    if c = '<' then
      match cs.takeWhile (fun x => decide (x ≠ '>')), cs.dropWhile (fun x => decide (x ≠ '>')) with
      | _ :: _, '>' :: tail => stripTagsGo fuel tail
      | _, _ => c :: stripTagsGo fuel cs
    else c :: stripTagsGo fuel cs

/-- JS `trim()` over the ASCII whitespace the pipeline produces. -/
def jsTrim (s : List Char) : List Char :=
  ((s.dropWhile jsSpace).reverse.dropWhile jsSpace).reverse

/-- The apostrophe character, used as a replacement string. -/
def sQuote : String := String.mk [Char.ofNat 39]

/-- Embeds `decodeHtmlEntities` of part_003: the fixed chain of entity
replacements (`&#39;` `&quot;` `&amp;` `&lt;` `&gt;` `&nbsp;` `&apos;`),
then decimal character references, then markup stripping, then trim. -/
def decodeHtmlEntities (text : String) : String :=
  let s1 := replaceL text.toList "&#39;" sQuote
  let s2 := replaceL s1 "&quot;" "\""
  let s3 := replaceL s2 "&amp;" "&"
  let s4 := replaceL s3 "&lt;" "<"
  let s5 := replaceL s4 "&gt;" ">"
  let s6 := replaceL s5 "&nbsp;" " "
  let s7 := replaceL s6 "&apos;" sQuote
  let s8 := decodeNumericGo s7.length s7
  let s9 := stripTagsGo s8.length s8
  String.mk (jsTrim s9)

/-- Expect a literal character sequence, returning the rest. -/
def expectChars : List Char → List Char → Option (List Char)
  | [], s => some s
  | _ :: _, [] => none
  | p :: ps, c :: cs => if p = c then expectChars ps cs else none

/-- Take at least one character satisfying `p` (a greedy `X+`). -/
def takeWhile1 (p : Char → Bool) (s : List Char) : Option (List Char × List Char) :=
  let pre := s.takeWhile p
  if pre.isEmpty then none else some (pre, s.dropWhile p)

/-- Split at the first occurrence of `pat`: the characters before it and
the characters after it (the lazy `([\s\S]*?)pat`).  Fails when `pat`
does not occur. -/
def splitAtSub (pat : List Char) : ℕ → List Char → Option (List Char × List Char)
  | _, [] => if pat.isEmpty then some ([], []) else none
  | 0, _ => none
  | fuel + 1, c :: cs =>
    if listStartsWith pat (c :: cs) then some ([], (c :: cs).drop pat.length)
    else
      match splitAtSub pat fuel cs with
      | some (pre, post) => some (c :: pre, post)
      | none => none

/-- Match the grammar-A pattern
`<p\s+t="(\d+)"\s+d="(\d+)"[^>]*>([\s\S]*?)<\/p>` at the start of the
input; on success return the two millisecond offsets, the raw body and
the rest of the input after the closing tag. -/
def matchPAt (s : List Char) : Option ((ℕ × ℕ × List Char) × List Char) := do
  let s1 ← expectChars "<p".toList s
  let (_, s2) ← takeWhile1 jsSpace s1
  let s3 ← expectChars "t=\"".toList s2
  let (tds, s4) ← takeWhile1 Char.isDigit s3
  let s5 ← expectChars "\"".toList s4
  let (_, s6) ← takeWhile1 jsSpace s5
  let s7 ← expectChars "d=\"".toList s6
  let (dds, s8) ← takeWhile1 Char.isDigit s7
  let s9 ← expectChars "\"".toList s8
  let s10 ← expectChars ">".toList (s9.dropWhile fun c => decide (c ≠ '>'))
  let (body, rest) ← splitAtSub "</p>".toList s10.length s10
  pure ((digitsToNat tds, digitsToNat dds, body), rest)

/-- The scanning loop of `parsePTagFormat`: at each position try the
pattern; on a match, decode the body and keep the segment when both the
raw body and the decoded text are non-empty (the JS truthiness checks),
then continue after the match; otherwise advance one character. -/
def parsePTagGo : ℕ → List Char → List TimecodeEntry
  | _, [] => []
  | 0, _ => []
  | fuel + 1, c :: cs =>
    match matchPAt (c :: cs) with
    | some ((t, d, body), rest) =>
      (if body.isEmpty then []
       else
        let text := decodeHtmlEntities (String.mk body)
        if text = "" then []
        else [{ text := text, start := (t : Int), end_ := (t : Int) + (d : Int),
                duration := (d : Int) }])
        ++ parsePTagGo fuel rest
    | none => parsePTagGo fuel cs

/-- Embeds `parsePTagFormat` (grammar A, compact millisecond offsets). -/
def parsePTagFormat (xml : String) : List TimecodeEntry :=
  parsePTagGo xml.toList.length xml.toList

/-- `parseFloat` on a string drawn from `[\d.]+`: integer part, optional
fraction; no leading digit or fraction digit at all is `NaN` (`none`). -/
def parseFloatQ (ds : List Char) : Option ℚ :=
  let intPart := ds.takeWhile Char.isDigit
  match ds.dropWhile Char.isDigit with
  | '.' :: rest2 =>
    let fracPart := rest2.takeWhile Char.isDigit
    if intPart.isEmpty ∧ fracPart.isEmpty then none
    else some ((digitsToNat intPart : ℚ) + (digitsToNat fracPart : ℚ) / ((10 : ℚ) ^ fracPart.length))
  | _ => if intPart.isEmpty then none else some (digitsToNat intPart : ℚ)

/-- JS `Math.round` (half up, ties toward +∞): the floor of `q + 1/2`. -/
def jsRound (q : ℚ) : Int := ⌊q + 1 / 2⌋

/-- A digit-or-dot character (`[\d.]`). -/
def isDigitOrDot (c : Char) : Bool := c.isDigit || c = '.'

/-- Match the optional `(?:\s+dur="([\d.]+)")?` group. -/
def matchDurAt (s : List Char) : Option (List Char × List Char) := do
  let (_, a) ← takeWhile1 jsSpace s
  let b ← expectChars "dur=\"".toList a
  let (ds, c) ← takeWhile1 isDigitOrDot b
  let d ← expectChars "\"".toList c
  pure (ds, d)

/-- Match the grammar-B pattern
`<text\s+start="([\d.]+)"(?:\s+dur="([\d.]+)")?[^>]*>([\s\S]*?)<\/text>`
at the start of the input; the second component of the result is the
matched `dur` digit string, if the optional group matched. -/
def matchTextAt (s : List Char) : Option ((List Char × Option (List Char) × List Char) × List Char) := do
  let s1 ← expectChars "<text".toList s
  let (_, s2) ← takeWhile1 jsSpace s1
  let s3 ← expectChars "start=\"".toList s2
  let (sds, s4) ← takeWhile1 isDigitOrDot s3
  let s5 ← expectChars "\"".toList s4
  let (dur?, s6) :=
    match matchDurAt s5 with
    | some (ds, r) => (some ds, r)
    | none => (none, s5)
  let s7 ← expectChars ">".toList (s6.dropWhile fun c => decide (c ≠ '>'))
  let (body, rest) ← splitAtSub "</text>".toList s7.length s7
  pure ((sds, dur?, body), rest)

/-- The scanning loop of `parseTextTagFormat`: seconds-with-decimal
offsets are multiplied by 1000 and rounded; a missing `dur` attribute is
`'0'`.  A `NaN` offset (degenerate attribute like `"."`, impossible in
real caption documents) is not representable and embeds as 0. -/
def parseTextTagGo : ℕ → List Char → List TimecodeEntry
  | _, [] => []
  | 0, _ => []
  | fuel + 1, c :: cs =>
    match matchTextAt (c :: cs) with
    | some ((sds, dur?, body), rest) =>
      (if body.isEmpty then []
       else
        let text := decodeHtmlEntities (String.mk body)
        if text = "" then []
        else
          let startQ := (parseFloatQ sds).getD 0
          let durQ := (parseFloatQ ((dur?).getD ['0'])).getD 0
          let start := jsRound (startQ * 1000)
          let duration := jsRound (durQ * 1000)
          [{ text := text, start := start, end_ := start + duration, duration := duration }])
        ++ parseTextTagGo fuel rest
    | none => parseTextTagGo fuel cs

/-- Embeds `parseTextTagFormat` (grammar B, seconds with decimals). -/
def parseTextTagFormat (xml : String) : List TimecodeEntry :=
  parseTextTagGo xml.toList.length xml.toList

/-- Embeds `parseTimedTextXml`: try grammar A; fall back to grammar B
only when grammar A yields no segment. -/
def parseTimedTextXml (xml : String) : List TimecodeEntry :=
  let pSegments := parsePTagFormat xml
  if 0 < pSegments.length then pSegments else parseTextTagFormat xml

/-- Outcome of the parsing step of `fetchTranscriptFromYouTube`:
either the segment list and the space-joined full transcript, or the
fatal unparseable error. -/
inductive ParseOutcome where
  | ok (segments : List TimecodeEntry) (fullTranscript : String) : ParseOutcome
  | unparseable : ParseOutcome
  deriving Repr, DecidableEq

/-- Embeds steps 6 of `fetchTranscriptFromYouTube`: zero parsed segments
is fatal, otherwise the record fields are assembled. -/
def parseStage (xml : String) : ParseOutcome :=
  let segments := parseTimedTextXml xml
  if segments.length = 0 then ParseOutcome.unparseable
  else ParseOutcome.ok segments (jsJoin " " (segments.map (·.text)))

/-- C6: grammar A (`<p t d>` with millisecond offsets) is tried first
and its result returned whenever non-empty; grammar B (`<text start
dur>` with second offsets scaled by 1000 and rounded) is consulted only
when grammar A yields zero segments; and when both grammars yield zero
segments the extraction fails instead of producing a record. -/
theorem parser_grammar_fallback (xml : String) :
    (parsePTagFormat xml ≠ [] → parseTimedTextXml xml = parsePTagFormat xml)
      ∧ (parsePTagFormat xml = [] → parseTimedTextXml xml = parseTextTagFormat xml)
      ∧ (parsePTagFormat xml = [] → parseTextTagFormat xml = [] →
          parseStage xml = ParseOutcome.unparseable)
      ∧ (parseTimedTextXml xml ≠ [] →
          parseStage xml = ParseOutcome.ok (parseTimedTextXml xml)
            (jsJoin " " ((parseTimedTextXml xml).map (·.text)))) := by
  refine ⟨?_, ?_, ?_, ?_⟩
  · intro h
    unfold parseTimedTextXml
    rw [if_pos (List.length_pos.mpr h)]
  · intro h
    unfold parseTimedTextXml
    rw [h]
    simp
  · intro h1 h2
    unfold parseStage parseTimedTextXml
    rw [h1]
    simp [h2]
  · intro h
    unfold parseStage
    rw [if_neg (by simpa [List.length_eq_zero] using h)]

/-- Witness for C6: a grammar-A document is answered by grammar A, a
grammar-B document falls through to grammar B (grammar A yields nothing
on it), and a document in neither grammar makes the parse stage fail. -/
theorem parser_grammar_fallback_witness :
    parseTimedTextXml "<p t=\"0\" d=\"1000\">hi</p>"
        = parsePTagFormat "<p t=\"0\" d=\"1000\">hi</p>"
      ∧ parseTimedTextXml "<text start=\"1.5\" dur=\"2\">yo</text>"
          = parseTextTagFormat "<text start=\"1.5\" dur=\"2\">yo</text>"
      ∧ parseStage "no tags here" = ParseOutcome.unparseable := by
  refine ⟨(parser_grammar_fallback _).1 ?_, (parser_grammar_fallback _).2.1 ?_,
    (parser_grammar_fallback _).2.2.1 ?_ ?_⟩
  · decide
  · decide
  · decide
  · decide

end YT
